import Mathlib

/-!
Verification of the per-connection UDP forwarding core (`forwarder.go` of the
weave overlay router): the forward dispatcher, the application-level IPv4
fragmenter, and the forwarder pipeline's flush / PMTU-verification logic.

The Go source is shallowly embedded: queues become lists, Go `int` becomes
`Int` (with explicit `uint16` truncation where the source casts), the
fragmenter's `for` loop becomes a fuel-indexed recursion (fuel exhaustion
models non-termination, `fault` models a slice-bounds panic), and the
pipeline task becomes a labelled transition system whose environment inputs
are the sender results, the verified flag, and the arriving frame lengths.
-/

set_option maxHeartbeats 1000000
set_option maxRecDepth 100000

namespace Weave

/-- Ethernet header length in bytes (the router constant `EthernetOverhead`);
    the value 14 is pinned by the spec's own arithmetic
    `floor((1000 - 14 - 20)/8) * 8` for a 20-byte IP header. -/
def EthernetOverhead : Int := 14

/-- Modelled from the spec: the router constant `UDPOverhead` (UDP/IP header
    bytes the sender adds per datagram) is declared outside the provided
    source file; every statement below uses it symbolically, so its numeric
    value (IP 20 + UDP 8) is never load-bearing. -/
def UDPOverhead : Int := 28

/-- Modelled from the spec: the router constant `MinPMTU` is declared outside
    the provided source file and the spec fixes no numeric value; the
    conventional IPv4 minimum 576 is used here.  The refutation of the
    MinPMTU invariant drives the client PMTU to a negative value, so it does
    not depend on which positive value is chosen. -/
def MinPMTU : Int := 576

/-- gopacket `layers.IPv4MoreFragments`: the low bit of the IPv4 flags field. -/
def IPv4MoreFragments : Nat := 1

/-- gopacket `layers.EthernetTypeLLC = 0`. -/
def EthernetTypeLLC : Nat := 0

/-- Go `uint16(x)` applied to an `int`: two's-complement truncation to
    16 bits, i.e. the mathematical residue mod 2^16. -/
def u16 (x : Int) : Nat := (Int.emod x 65536).toNat

/-- Go `x &^ 7` on `int`: clear the three low bits, i.e. round toward
    minus infinity to a multiple of 8. -/
def clearLow3 (x : Int) : Int := 8 * Int.fdiv x 8

/-- Decoded Ethernet header (the fields `fragment` reads and writes:
    `EthernetType` and `Length`). -/
structure EthernetHdr where
  ethernetType : Nat
  length : Nat
deriving DecidableEq

/-- Decoded IPv4 header (the fields `fragment` reads and writes).  The
    identification and address fields are carried so that their preservation
    on every segment is visible in the embedding. -/
structure IPv4Hdr where
  ihl : Nat
  length : Nat
  ident : Nat
  flags : Nat
  fragOffset : Nat
  srcIP : Nat
  dstIP : Nat
deriving DecidableEq

/-- One output segment of the fragmenter: the headers and IP payload that
    `gopacket.SerializeLayers` is handed for this chunk.  Serialization by the
    external gopacket library is modelled as the (injective) packaging of
    exactly these three components. -/
structure Segment where
  eth : EthernetHdr
  ip : IPv4Hdr
  payload : List Nat
deriving DecidableEq

/-- The bytes of a `ForwardedFrame`: either the raw Ethernet bytes a producer
    handed in, or the serialization of a fragmenter segment. -/
inductive FrameBytes where
  | raw (bytes : List Nat)
  | serialized (eth : EthernetHdr) (ip : IPv4Hdr) (payload : List Nat)
deriving DecidableEq

/-- Length in bytes of the frame: for a serialized segment this is the
    14-byte Ethernet header plus the IP header plus the payload. -/
def FrameBytes.byteLen : FrameBytes → Nat
  | .raw bytes => bytes.length
  | .serialized _ ip payload => 14 + ip.ihl * 4 + payload.length

/-- `ForwardedFrame`: source and destination peer identities plus the raw
    Ethernet payload. -/
structure ForwardedFrame where
  srcPeer : Nat
  dstPeer : Nat
  frame : FrameBytes
deriving DecidableEq

/-- Fragment offset (in 8-byte units) of the IP header of a serialized
    segment; 0 for a raw frame, which carries no decoded header here. -/
def ForwardedFrame.fragOffsetVal : ForwardedFrame → Nat
  | ⟨_, _, .serialized _ ip _⟩ => ip.fragOffset
  | _ => 0

/-- IPv4 flags of the IP header of a serialized segment; 0 for a raw frame. -/
def ForwardedFrame.flagsVal : ForwardedFrame → Nat
  | ⟨_, _, .serialized _ ip _⟩ => ip.flags
  | _ => 0

/-- IP payload length of a serialized segment; 0 for a raw frame. -/
def ForwardedFrame.payloadLen : ForwardedFrame → Nat
  | ⟨_, _, .serialized _ _ payload⟩ => payload.length
  | _ => 0

/-- Result of parsing a frame (`EthernetDecoder`): the decoded Ethernet and
    IPv4 headers, the IP payload bytes (`ip.BaseLayer.Payload`), and the
    number of successfully decoded layers (`len(dec.decoded)`). -/
structure EthernetDecoder where
  eth : EthernetHdr
  ip : IPv4Hdr
  ipPayload : List Nat
  decodedCount : Nat
deriving DecidableEq

/-- The subset of `LocalConnection` state the dispatcher snapshots under the
    read lock: the two forward-queue handles (`none` = nil handle; a queue's
    contents are the frames enqueued and not yet consumed), `clientPMTU`, and
    `stackFrag`.  The stop channels only signal the pipeline tasks and carry
    no dispatcher-visible state. -/
structure ConnState where
  forwardChan : Option (List ForwardedFrame)
  forwardChanDF : Option (List ForwardedFrame)
  clientPMTU : Int
  stackFrag : Bool
deriving DecidableEq

/-- Result of a `Forward` call.  `frameTooBig` is `FrameTooBigError`
    (which in the source also carries the offending frame); `diverged`
    marks the calls on which the Go code panics or loops forever inside the
    fragmenter and hence never returns. -/
inductive ForwardResult where
  | ok
  | frameTooBig (pmtu : Int)
  | diverged
deriving DecidableEq

/-- `headerSize = int(ip.IHL) * 4`. -/
def headerSize (ip : IPv4Hdr) : Int := (ip.ihl : Int) * 4

/-- `maxSegmentSize := (pmtu - EthernetOverhead - headerSize) &^ 7`. -/
def maxSegmentSize (ip : IPv4Hdr) (pmtu : Int) : Int :=
  clearLow3 (pmtu - EthernetOverhead - headerSize ip)

/-- `payloadSize := int(ip.Length) - headerSize`. -/
def payloadSizeOf (ip : IPv4Hdr) : Int := (ip.length : Int) - headerSize ip

/-- Outcome of the fragmenter's chunking loop, with the segments handed to
    the forward callback before the outcome: `ok` is normal return, `fault`
    is a Go slice-bounds panic, `timeout` is fuel exhaustion and stands for
    an execution that has not terminated within the given fuel. -/
inductive FragResult where
  | ok (segs : List Segment)
  | fault (segs : List Segment)
  | timeout (segs : List Segment)
deriving DecidableEq

/-- Prepend a segment forwarded before the remainder of the loop ran. -/
def FragResult.cons (s : Segment) : FragResult → FragResult
  | .ok l => .ok (s :: l)
  | .fault l => .fault (s :: l)
  | .timeout l => .timeout (s :: l)

/-- Whether the loop returned normally. -/
def FragResult.isOk : FragResult → Bool
  | .ok _ => true
  | _ => false

/-- The segments emitted (regardless of outcome). -/
def FragResult.segs : FragResult → List Segment
  | .ok l => l
  | .fault l => l
  | .timeout l => l

/-- The chunking loop of `fragment`
    (`for offset := 0; offset < payloadSize; offset += maxSegmentSize`),
    with the mutated `eth`/`ip` structs threaded through and the loop counter
    replaced by fuel.  `origFlags` is the flags value saved before the loop;
    on entry from `fragment`, `ip` already has `MoreFragments` set and
    `length` set to `uint16(headerSize + maxSegmentSize)`. -/
def fragmentLoop (origFlags : Nat) (hSz mSeg pSz oBase : Int) :
    Nat → EthernetHdr → IPv4Hdr → Int → List Nat → FragResult
  | 0, _, _, _, _ => .timeout []
  | fuel + 1, eth, ip, offset, payload =>
    if offset < pSz then
      if (payload.length : Int) ≤ mSeg then
        -- last one: restore the original flags, shrink the length fields
        let ipA : IPv4Hdr := { ip with length := u16 ((payload.length : Int) + hSz),
                                       flags := origFlags }
        let ethA : EthernetHdr :=
          if eth.ethernetType = EthernetTypeLLC then { eth with length := ipA.length }
          else { eth with length := 0 }
        let ipB : IPv4Hdr := { ipA with fragOffset := u16 (Int.fdiv (offset + oBase) 8) }
        FragResult.cons ⟨ethA, ipB, payload⟩
          (fragmentLoop origFlags hSz mSeg pSz oBase fuel ethA ipB (offset + mSeg) payload)
      else if mSeg < 0 then
        -- payload[:maxSegmentSize] with a negative bound panics
        .fault []
      else
        let segPayload := payload.take mSeg.toNat
        let rest := payload.drop mSeg.toNat
        let ipB : IPv4Hdr := { ip with fragOffset := u16 (Int.fdiv (offset + oBase) 8) }
        FragResult.cons ⟨eth, ipB, segPayload⟩
          (fragmentLoop origFlags hSz mSeg pSz oBase fuel eth ipB (offset + mSeg) rest)
    else .ok []

/-- `fragment(eth, ip, pmtu, frame, forward)` up to the choice of fuel for
    the loop: compute the segment geometry, slice the payload
    (`ip.BaseLayer.Payload[:payloadSize]`, a panic when the bound is outside
    the slice), pre-set `MoreFragments` and the per-chunk length fields, and
    run the chunking loop. -/
def fragmentWithFuel (eth : EthernetHdr) (ip : IPv4Hdr) (pmtu : Int)
    (payloadBytes : List Nat) (fuel : Nat) : FragResult :=
  let hSz := headerSize ip
  let mSeg := maxSegmentSize ip pmtu
  let pSz := payloadSizeOf ip
  if 0 ≤ pSz ∧ pSz ≤ (payloadBytes.length : Int) then
    let payload := payloadBytes.take pSz.toNat
    let oBase : Int := (ip.fragOffset : Int) * 8
    let origFlags := ip.flags
    let ip1 : IPv4Hdr := { ip with flags := ip.flags ||| IPv4MoreFragments,
                                   length := u16 (hSz + mSeg) }
    let eth1 : EthernetHdr :=
      if eth.ethernetType = EthernetTypeLLC then { eth with length := ip1.length }
      else { eth with length := 0 }
    fragmentLoop origFlags hSz mSeg pSz oBase fuel eth1 ip1 0 payload
  else .fault []

/-- `fragment` with enough fuel that the loop semantics is fuel-independent
    whenever `maxSegmentSize ≥ 1` (each iteration then consumes at least one
    payload byte or is the final chunk). -/
def fragment (eth : EthernetHdr) (ip : IPv4Hdr) (pmtu : Int)
    (payloadBytes : List Nat) : FragResult :=
  fragmentWithFuel eth ip pmtu payloadBytes (payloadBytes.length + 1)

/-- The forward callback passed by `Forward` to `fragment` enqueues, for each
    segment, a shallow copy of the original frame whose bytes are the fresh
    serialization — peer identifiers are preserved. -/
def enqueueSegs (frame : ForwardedFrame) (segs : List Segment) : List ForwardedFrame :=
  segs.map fun s =>
    { srcPeer := frame.srcPeer, dstPeer := frame.dstPeer,
      frame := FrameBytes.serialized s.eth s.ip s.payload }

/-- `LocalConnection.Forward(df, frame, dec)`: returns the call's result and
    the connection state after the call (queue contents updated by the
    enqueues the call performs). -/
def Forward (conn : ConnState) (df : Bool) (frame : ForwardedFrame)
    (dec : Option EthernetDecoder) : ForwardResult × ConnState :=
  match conn.forwardChan, conn.forwardChanDF with
  | some q, some qdf =>
    if df then
      if (frame.frame.byteLen : Int) - EthernetOverhead ≤ conn.clientPMTU then
        (.ok, { conn with forwardChanDF := some (qdf ++ [frame]) })
      else
        (.frameTooBig conn.clientPMTU, conn)
    else
      match dec with
      | none => (.ok, { conn with forwardChan := some (q ++ [frame]) })
      | some d =>
        if conn.stackFrag || d.decodedCount < 2 then
          (.ok, { conn with forwardChan := some (q ++ [frame]) })
        else if (frame.frame.byteLen : Int) - EthernetOverhead ≤ conn.clientPMTU then
          (.ok, { conn with forwardChanDF := some (qdf ++ [frame]) })
        else
          match fragment d.eth d.ip conn.clientPMTU d.ipPayload with
          | .ok segs => (.ok, { conn with forwardChanDF := some (qdf ++ enqueueSegs frame segs) })
          | .fault segs =>
            (.diverged, { conn with forwardChanDF := some (qdf ++ enqueueSegs frame segs) })
          | .timeout segs =>
            (.diverged, { conn with forwardChanDF := some (qdf ++ enqueueSegs frame segs) })
  | _, _ =>
    -- "Cannot forward frame yet - awaiting contact": log and drop
    (.ok, conn)

/-- `stopForwarders`: under the write lock, null out the two forward-queue
    handles.  (It then posts to the stop channels, which signals the pipeline
    tasks and touches no dispatcher-visible state.) -/
def stopForwarders (conn : ConnState) : ConnState :=
  { conn with forwardChan := none, forwardChanDF := none }

/-- The encryptor accounting parameters of the pipeline's encryptor
    (`FrameOverhead()` and `PacketOverhead()` are constants of each
    encryptor variant).  The encryptor implementations are outside the
    provided source; they are modelled by the batch-builder contract the
    pipeline consumes. -/
structure EncParams where
  frameOverhead : Int
  packetOverhead : Int
deriving DecidableEq

/-- State of one forwarder pipeline (`forwarderLoop` locals plus the
    connection fields it writes): `maxPayload`, the local `clientPMTU`
    variable, the connection's `clientPMTU` as written by
    `conn.setClientPMTU` (modelled from the spec: the setter writes the
    value through the connection lock), whether `pmtuVerifyTick` is armed,
    and the encryptor's in-flight batch (the lengths of the appended frames
    and `TotalLen()`). -/
structure PipeState where
  maxPayload : Int
  clientPMTU : Int
  connClientPMTU : Int
  verifyArmed : Bool
  batch : List Int
  totalLen : Int
deriving DecidableEq

/-- One datagram handed to `udpSender.Send`: the lengths of the frames it
    carries, its total length (`TotalLen() + PacketOverhead()` under the
    accurate-accounting assumption), and the pipeline's `maxPayload` at the
    moment of the send. -/
structure Sent where
  frames : List Int
  datagramLen : Int
  maxPayloadAt : Int
deriving DecidableEq

/-- `enc.AppendFrame(f)`: commit the frame plus per-frame overhead. -/
def encAppend (p : EncParams) (s : PipeState) (frameLen : Int) : PipeState :=
  { s with batch := s.batch ++ [frameLen],
           totalLen := s.totalLen + p.frameOverhead + frameLen }

/-- `udpSender.Send(enc.Bytes())`: serialize the batch into one datagram and
    reset the builder. -/
def encFlush (p : EncParams) (s : PipeState) : PipeState × Sent :=
  ({ s with batch := [], totalLen := 0 },
   { frames := s.batch, datagramLen := s.totalLen + p.packetOverhead,
     maxPayloadAt := s.maxPayload })

/-- The `for cnt := 0; cnt < 10; cnt += 1` body of `updateClientPMTU`:
    append one verification frame of length `vlen` and flush it. -/
def verifySendLoop (p : EncParams) (vlen : Int) :
    Nat → PipeState → PipeState × List Sent
  | 0, s => (s, [])
  | n + 1, s =>
    let s1 := encAppend p s vlen
    let sd := encFlush p s1
    let rest := verifySendLoop p vlen n sd.1
    (rest.1, sd.2 :: rest.2)

/-- `updateClientPMTU`: write `clientPMTU` to the connection, send ten
    individually flushed verification frames of length
    `clientPMTU + EthernetOverhead`, and arm `pmtuVerifyTick`. -/
def updateClientPMTU (p : EncParams) (s : PipeState) : PipeState × List Sent :=
  let s1 := { s with connClientPMTU := s.clientPMTU }
  let sent := verifySendLoop p (s.clientPMTU + EthernetOverhead) 10 s1
  ({ sent.1 with verifyArmed := true }, sent.2)

/-- The `appendFrame` closure: refuse the frame when
    `TotalLen() + FrameOverhead() + len(frame) > maxPayload`,
    otherwise append it. -/
def appendFrame (p : EncParams) (s : PipeState) (frameLen : Nat) : PipeState × Bool :=
  if s.totalLen + p.frameOverhead + (frameLen : Int) > s.maxPayload then (s, false)
  else (encAppend p s (frameLen : Int), true)

/-- The possible returns of `udpSender.Send` as the `flush` closure
    distinguishes them: success, `FrameTooBigError{pmtu}`, `ENOBUFS`
    (swallowed), any other error (fatal for the connection, no pipeline
    state change before teardown). -/
inductive SendResult where
  | ok
  | frameTooBig (pmtu : Int)
  | enobufs
  | fatal
deriving DecidableEq

/-- The `flush` closure: hand the batch to the sender; on `FrameTooBigError`
    recompute `maxPayload` and `clientPMTU` and run `updateClientPMTU`. -/
def flush (p : EncParams) (s : PipeState) (res : SendResult) : PipeState × List Sent :=
  let sd := encFlush p s
  match res with
  | .frameTooBig pmtu =>
    let mp := pmtu - UDPOverhead
    let s2 := { sd.1 with maxPayload := mp,
                          clientPMTU := mp - p.packetOverhead - p.frameOverhead
                                          - EthernetOverhead }
    let upd := updateClientPMTU p s2
    (upd.1, sd.2 :: upd.2)
  | _ => (sd.1, [sd.2])

/-- The `pmtuVerifyTick` case of the main loop: the one-shot timer fires
    (`pmtuVerifyTick = nil`); when the current `clientPMTU` is not verified,
    decrement it by 10 and re-issue verification. -/
def verifyTickFire (p : EncParams) (s : PipeState) (verified : Bool) :
    PipeState × List Sent :=
  let s0 := { s with verifyArmed := false }
  if verified then (s0, [])
  else
    let s1 := { s0 with clientPMTU := s0.clientPMTU - 10 }
    updateClientPMTU p s1

/-- The pipeline events with their environment inputs: a frame of the given
    length pulled from the forward queue and offered to `appendFrame`
    (a refused frame is dropped with a log), a `flush` whose send returns
    `res`, and a verify-timer expiry with the current verified flag. -/
inductive Step where
  | append (frameLen : Nat)
  | flushSend (res : SendResult)
  | tick (verified : Bool)

/-- When an event is possible: `flush` is only ever invoked after at least
    one frame was appended to the fresh batch (the loop drops a frame that
    does not fit an empty batch without flushing), and the timer case is
    only selected at the outer `select`, where the batch is empty. -/
def stepOK (s : PipeState) : Step → Bool
  | .append _ => true
  | .flushSend _ => !s.batch.isEmpty
  | .tick _ => s.verifyArmed && s.batch.isEmpty && (s.totalLen == 0)

/-- Effect of one event: the successor state and the datagrams handed to the
    sender during the event. -/
def stepRun (p : EncParams) (s : PipeState) : Step → PipeState × List Sent
  | .append n => ((appendFrame p s n).1, [])
  | .flushSend res => flush p s res
  | .tick v => verifyTickFire p s v

/-- Run a sequence of events, collecting every datagram handed to the sender. -/
def runSteps (p : EncParams) (s : PipeState) : List Step → PipeState × List Sent
  | [] => (s, [])
  | st :: rest =>
    let first := stepRun p s st
    let more := runSteps p first.1 rest
    (more.1, first.2 ++ more.2)

/-- Whether a sequence of events is possible from `s`. -/
def validTrace (p : EncParams) (s : PipeState) : List Step → Bool
  | [] => true
  | st :: rest => stepOK s st && validTrace p (stepRun p s st).1 rest

/-- Pipeline state at `forwarderLoop` entry: `maxPayload = pmtu - UDPOverhead`,
    the local `clientPMTU` still zero, no verification pending, empty batch.
    `connPMTU0` is the connection's current `clientPMTU`. -/
def initPipeState (pmtu connPMTU0 : Int) : PipeState :=
  { maxPayload := pmtu - UDPOverhead, clientPMTU := 0, connClientPMTU := connPMTU0,
    verifyArmed := false, batch := [], totalLen := 0 }

/-- The inductive invariant behind the datagram-size bound: the batch never
    exceeds `maxPayload` once non-empty, and whenever the verify timer is
    armed the verification datagram built from `clientPMTU` fits
    `maxPayload`. -/
def PipeInv (p : EncParams) (s : PipeState) : Prop :=
  0 ≤ s.totalLen ∧
  (s.batch = [] → s.totalLen = 0) ∧
  (s.batch ≠ [] → s.totalLen ≤ s.maxPayload) ∧
  (s.verifyArmed = true →
    s.clientPMTU + EthernetOverhead + p.frameOverhead + p.packetOverhead ≤ s.maxPayload)

/-- Connection used for the dispatcher boundary checks: ready queues,
    `clientPMTU = 1000`, untrusted stack. -/
def c1conn : ConnState := ⟨some [], some [], 1000, false⟩

/-- A frame of length exactly `clientPMTU + EthernetOverhead` for `c1conn`. -/
def c1frameA : ForwardedFrame := ⟨1, 2, .raw (List.replicate 1014 0)⟩

/-- A frame one byte longer than `clientPMTU + EthernetOverhead` for `c1conn`. -/
def c1frameB : ForwardedFrame := ⟨1, 2, .raw (List.replicate 1015 0)⟩

/-- The S3 scenario inputs: a 2500-byte EthernetII IPv4 frame
    (IP total length 2486, 20-byte header, 2466-byte payload, flags = DF,
    offset 0) against `clientPMTU = 1000` with `stackFrag = false`. -/
def c4eth : EthernetHdr := ⟨2048, 0⟩

/-- S3 scenario IPv4 header. -/
def c4ip : IPv4Hdr := ⟨5, 2486, 42, 2, 0, 11, 22⟩

/-- S3 scenario IP payload bytes. -/
def c4payload : List Nat := List.replicate 2466 0

/-- S3 scenario frame (2500 raw Ethernet bytes). -/
def c4frame : ForwardedFrame := ⟨7, 8, .raw (List.replicate 2500 0)⟩

/-- S3 scenario decoder output (Ethernet and IPv4 both decoded). -/
def c4dec : EthernetDecoder := ⟨c4eth, c4ip, c4payload, 2⟩

/-- S3 scenario connection state. -/
def c4conn : ConnState := ⟨some [], some [], 1000, false⟩

/-- The DF queue contents after the S3 `Forward` call. -/
def c4dfq : List ForwardedFrame :=
  ((Forward c4conn false c4frame (some c4dec)).2.forwardChanDF).getD []

/-- A small decoded frame for the fragmenter layout witness: IP total
    length 36 (16-byte payload), flags = DF, original fragment offset 3. -/
def c6eth : EthernetHdr := ⟨2048, 0⟩

/-- Small witness IPv4 header. -/
def c6ip : IPv4Hdr := ⟨5, 36, 7, 2, 3, 11, 22⟩

/-- Small witness payload bytes. -/
def c6bytes : List Nat := List.replicate 16 0

/-- Encryptor accounting of the identity encryptor (no overhead), used by
    the concrete pipeline traces. -/
def c5params : EncParams := ⟨0, 0⟩

/-- DF pipeline state at startup with `pmtu = 1500`. -/
def c5init : PipeState := initPipeState 1500 1500

/-- A possible run of the DF pipeline: one frame is appended and flushed,
    the raw-IP sender reports `FrameTooBigError{1500}` (initializing
    `clientPMTU`), and then 150 verification timeouts fire with the PMTU
    still unverified. -/
def c5steps : List Step :=
  Step.append 100 :: Step.flushSend (SendResult.frameTooBig 1500) ::
    List.replicate 150 (Step.tick false)

/-! ### Helper lemmas -/

theorem FragResult.cons_isOk (s : Segment) (r : FragResult) :
    (FragResult.cons s r).isOk = r.isOk := by
  cases r <;> rfl

theorem FragResult.cons_segs (s : Segment) (r : FragResult) :
    (FragResult.cons s r).segs = s :: r.segs := by
  cases r <;> rfl

/-- `clearLow3` (Go `&^ 7`) is rounding down to a multiple of 8. -/
theorem clearLow3_spec (x : Int) :
    Int.emod (clearLow3 x) 8 = 0 ∧ clearLow3 x ≤ x ∧ x < clearLow3 x + 8 := by
  have h := Int.fdiv_add_fmod x 8
  have h2 := Int.fmod_nonneg' x (show (0:Int) < 8 by norm_num)
  have h3 := Int.fmod_lt_of_pos x (show (0:Int) < 8 by norm_num)
  refine ⟨?_, by unfold clearLow3; omega, by unfold clearLow3; omega⟩
  unfold clearLow3
  exact Int.mul_emod_right 8 _

/-! ### C1: the DF branch of the dispatcher -/

/-- C1: while both queue handles are non-null, `Forward(df=true, frame, _)`
    enqueues the frame on the DF queue and returns success exactly when
    `len(frame) - EthernetOverhead ≤ clientPMTU` (so a frame of length
    exactly `clientPMTU + EthernetOverhead` passes); otherwise it returns
    `FrameTooBigError` carrying the current `clientPMTU` and leaves the
    connection state, in particular both queues, unchanged. -/
theorem forward_df_branch (conn : ConnState) (frame : ForwardedFrame)
    (dec : Option EthernetDecoder) (q qdf : List ForwardedFrame)
    (hq : conn.forwardChan = some q) (hqdf : conn.forwardChanDF = some qdf) :
    ((frame.frame.byteLen : Int) - EthernetOverhead ≤ conn.clientPMTU →
      Forward conn true frame dec =
        (ForwardResult.ok, { conn with forwardChanDF := some (qdf ++ [frame]) })) ∧
    (conn.clientPMTU < (frame.frame.byteLen : Int) - EthernetOverhead →
      Forward conn true frame dec = (ForwardResult.frameTooBig conn.clientPMTU, conn)) := by
  constructor
  · intro h
    simp only [Forward, hq, hqdf]
    simp [h]
  · intro h
    simp only [Forward, hq, hqdf]
    simp [not_le.mpr h]

theorem forward_df_branch_witness :
    Forward c1conn true c1frameA none =
      (ForwardResult.ok, { c1conn with forwardChanDF := some ([] ++ [c1frameA]) }) ∧
    Forward c1conn true c1frameB none =
      (ForwardResult.frameTooBig c1conn.clientPMTU, c1conn) :=
  ⟨(forward_df_branch c1conn c1frameA none [] [] rfl rfl).1 (by decide),
   (forward_df_branch c1conn c1frameB none [] [] rfl rfl).2 (by decide)⟩

/-! ### C9: nil queue handles and `stopForwarders` -/

/-- C9: when either forward-queue handle the dispatcher observes is null,
    `Forward` returns success and changes nothing; `stopForwarders` nulls
    both handles, so every subsequent `Forward` call returns success with no
    side effects on queues or connection state. -/
theorem forward_nil_queue_noop :
    (∀ (conn : ConnState) (df : Bool) (frame : ForwardedFrame)
        (dec : Option EthernetDecoder),
      conn.forwardChan = none ∨ conn.forwardChanDF = none →
      Forward conn df frame dec = (ForwardResult.ok, conn)) ∧
    (∀ conn : ConnState, (stopForwarders conn).forwardChan = none ∧
      (stopForwarders conn).forwardChanDF = none) ∧
    (∀ (conn : ConnState) (df : Bool) (frame : ForwardedFrame)
        (dec : Option EthernetDecoder),
      Forward (stopForwarders conn) df frame dec = (ForwardResult.ok, stopForwarders conn)) := by
  refine ⟨?_, fun conn => ⟨rfl, rfl⟩, ?_⟩
  · rintro ⟨fc, fdf, cp, sf⟩ df frame dec (h | h) <;> simp only at h <;> subst h
    · rfl
    · cases fc <;> rfl
  · intro conn df frame dec
    rfl

theorem forward_nil_queue_noop_witness :
    Forward ⟨none, some [], 1000, false⟩ true ⟨1, 2, .raw []⟩ none =
      (ForwardResult.ok, (⟨none, some [], 1000, false⟩ : ConnState)) :=
  forward_nil_queue_noop.1 ⟨none, some [], 1000, false⟩ true ⟨1, 2, .raw []⟩ none
    (Or.inl rfl)

/-! ### C2: the non-DF branch of the dispatcher -/

/-- C2: with both queues ready, `Forward(df=false, frame, dec)` enqueues on
    the non-DF queue and succeeds when the stack can fragment, the decoder
    is null, or fewer than two layers were decoded; otherwise a frame that
    fits under `clientPMTU` goes whole onto the DF queue with success;
    otherwise the fragmenter runs and every segment it emits is enqueued on
    the DF queue in order, the call returning the fragmenter's error —
    serialization is modelled as total, so the fragmenter error is absent
    and the call succeeds. -/
theorem forward_nondf_branch (conn : ConnState) (frame : ForwardedFrame)
    (d : EthernetDecoder) (q qdf : List ForwardedFrame)
    (hq : conn.forwardChan = some q) (hqdf : conn.forwardChanDF = some qdf) :
    (Forward conn false frame none =
      (ForwardResult.ok, { conn with forwardChan := some (q ++ [frame]) })) ∧
    (conn.stackFrag = true ∨ d.decodedCount < 2 →
      Forward conn false frame (some d) =
        (ForwardResult.ok, { conn with forwardChan := some (q ++ [frame]) })) ∧
    (conn.stackFrag = false → 2 ≤ d.decodedCount →
      (frame.frame.byteLen : Int) - EthernetOverhead ≤ conn.clientPMTU →
      Forward conn false frame (some d) =
        (ForwardResult.ok, { conn with forwardChanDF := some (qdf ++ [frame]) })) ∧
    (∀ segs, conn.stackFrag = false → 2 ≤ d.decodedCount →
      conn.clientPMTU < (frame.frame.byteLen : Int) - EthernetOverhead →
      fragment d.eth d.ip conn.clientPMTU d.ipPayload = FragResult.ok segs →
      Forward conn false frame (some d) =
        (ForwardResult.ok,
         { conn with forwardChanDF := some (qdf ++ enqueueSegs frame segs) })) := by
  refine ⟨?_, ?_, ?_, ?_⟩
  · simp only [Forward, hq, hqdf]
    simp
  · intro h
    simp only [Forward, hq, hqdf]
    have hcond : (conn.stackFrag || decide (d.decodedCount < 2)) = true := by
      rcases h with h | h
      · simp [h]
      · simp [h]
    simp [hcond]
  · intro hsf hcnt hfit
    simp only [Forward, hq, hqdf]
    have hcond : (conn.stackFrag || decide (d.decodedCount < 2)) = false := by
      simp [hsf, Nat.not_lt.mpr hcnt]
    simp [hcond, hfit]
  · intro segs hsf hcnt hbig hfrag
    simp only [Forward, hq, hqdf]
    have hcond : (conn.stackFrag || decide (d.decodedCount < 2)) = false := by
      simp [hsf, Nat.not_lt.mpr hcnt]
    simp [hcond, not_le.mpr hbig, hfrag]

theorem forward_nondf_branch_witness :
    Forward ⟨some [], some [], 1000, true⟩ false c1frameA none =
      (ForwardResult.ok,
       { (⟨some [], some [], 1000, true⟩ : ConnState) with
           forwardChan := some ([] ++ [c1frameA]) }) :=
  (forward_nondf_branch ⟨some [], some [], 1000, true⟩ c1frameA
    ⟨c6eth, c6ip, [], 2⟩ [] [] rfl rfl).1

/-! ### Pipeline: closed forms of the verification send loop -/

/-- Starting from an empty batch, each of the `n` verification iterations
    appends one frame of length `vlen` and flushes it as its own datagram;
    the pipeline state is unchanged afterwards. -/
theorem verifySendLoop_closed (p : EncParams) (vlen : Int) :
    ∀ (n : Nat) (s : PipeState), s.batch = [] → s.totalLen = 0 →
      verifySendLoop p vlen n s =
        (s, List.replicate n
          { frames := [vlen],
            datagramLen := p.frameOverhead + vlen + p.packetOverhead,
            maxPayloadAt := s.maxPayload }) := by
  intro n
  induction n with
  | zero =>
    intro s hb ht
    simp [verifySendLoop]
  | succ n ih =>
    rintro ⟨mp, cp, ccp, va, batch, tl⟩ hb ht
    simp only at hb ht
    subst hb ht
    simp only [verifySendLoop, encAppend, encFlush, List.nil_append]
    rw [ih ⟨mp, cp, ccp, va, [], 0⟩ rfl rfl]
    simp [List.replicate_succ]

/-- `updateClientPMTU` from an empty batch: write `clientPMTU` to the
    connection, arm the timer, and emit ten one-frame datagrams of
    verification frames of length `clientPMTU + EthernetOverhead`. -/
theorem updateClientPMTU_closed (p : EncParams) (s : PipeState)
    (hb : s.batch = []) (ht : s.totalLen = 0) :
    updateClientPMTU p s =
      ({ s with connClientPMTU := s.clientPMTU, verifyArmed := true },
       List.replicate 10
         { frames := [s.clientPMTU + EthernetOverhead],
           datagramLen := p.frameOverhead + (s.clientPMTU + EthernetOverhead)
                            + p.packetOverhead,
           maxPayloadAt := s.maxPayload }) := by
  simp only [updateClientPMTU]
  rw [verifySendLoop_closed p _ 10 { s with connClientPMTU := s.clientPMTU }
    (by simpa using hb) (by simpa using ht)]

/-! ### C3: flush on `FrameTooBigError` from the sender -/

/-- C3: when a flush's send returns `FrameTooBigError{pmtu}`, the pipeline
    sets `maxPayload = pmtu - UDPOverhead`, recomputes
    `clientPMTU = maxPayload - PacketOverhead - FrameOverhead -
    EthernetOverhead`, writes the new `clientPMTU` to the connection, sends
    exactly ten individually flushed verification datagrams, each carrying a
    single frame of length `clientPMTU + EthernetOverhead`, and arms the
    verify timer.  (The head of the emitted list is the datagram whose send
    failed.) -/
theorem flush_frame_too_big (p : EncParams) (s : PipeState) (pmtu : Int) :
    flush p s (SendResult.frameTooBig pmtu) =
      ({ maxPayload := pmtu - UDPOverhead,
         clientPMTU := pmtu - UDPOverhead - p.packetOverhead - p.frameOverhead
                         - EthernetOverhead,
         connClientPMTU := pmtu - UDPOverhead - p.packetOverhead - p.frameOverhead
                             - EthernetOverhead,
         verifyArmed := true, batch := [], totalLen := 0 },
       { frames := s.batch, datagramLen := s.totalLen + p.packetOverhead,
         maxPayloadAt := s.maxPayload } ::
       List.replicate 10
         { frames := [pmtu - UDPOverhead - p.packetOverhead - p.frameOverhead
                        - EthernetOverhead + EthernetOverhead],
           datagramLen := p.frameOverhead
                            + (pmtu - UDPOverhead - p.packetOverhead - p.frameOverhead
                                - EthernetOverhead + EthernetOverhead)
                            + p.packetOverhead,
           maxPayloadAt := pmtu - UDPOverhead }) := by
  simp only [flush, encFlush]
  rw [updateClientPMTU_closed p _ rfl rfl]

/-- The unverified tick case in closed form (shared helper). -/
theorem verifyTick_unverified_closed (p : EncParams) (s : PipeState)
    (hb : s.batch = []) (ht : s.totalLen = 0) :
    verifyTickFire p s false =
      ({ s with clientPMTU := s.clientPMTU - 10, connClientPMTU := s.clientPMTU - 10,
                verifyArmed := true },
       List.replicate 10
         { frames := [s.clientPMTU - 10 + EthernetOverhead],
           datagramLen := p.frameOverhead + (s.clientPMTU - 10 + EthernetOverhead)
                            + p.packetOverhead,
           maxPayloadAt := s.maxPayload }) := by
  simp only [verifyTickFire, Bool.false_eq_true, if_false]
  rw [updateClientPMTU_closed p _ (by simpa using hb) (by simpa using ht)]

/-! ### C7: the verify-timer case of the pipeline loop -/

/-- C7: when the armed verify timer fires at the outer select (batch empty)
    and the current `clientPMTU` is not verified, the pipeline decrements
    `clientPMTU` by exactly 10, writes it to the connection, re-issues
    verification as ten individually flushed one-frame datagrams whose frame
    length is the new `clientPMTU + EthernetOverhead`, and re-arms the
    timer; when it is verified, `clientPMTU` is unchanged and no datagrams
    are sent (the one-shot timer is simply cleared). -/
theorem verify_tick_behavior (p : EncParams) (s : PipeState)
    (_harmed : s.verifyArmed = true) (hb : s.batch = []) (ht : s.totalLen = 0) :
    verifyTickFire p s false =
      ({ s with clientPMTU := s.clientPMTU - 10, connClientPMTU := s.clientPMTU - 10,
                verifyArmed := true },
       List.replicate 10
         { frames := [s.clientPMTU - 10 + EthernetOverhead],
           datagramLen := p.frameOverhead + (s.clientPMTU - 10 + EthernetOverhead)
                            + p.packetOverhead,
           maxPayloadAt := s.maxPayload }) ∧
    verifyTickFire p s true = ({ s with verifyArmed := false }, []) := by
  constructor
  · exact verifyTick_unverified_closed p s hb ht
  · simp [verifyTickFire]

theorem verify_tick_behavior_witness :
    verifyTickFire c5params ⟨1472, 1200, 1200, true, [], 0⟩ false =
      ((⟨1472, 1190, 1190, true, [], 0⟩ : PipeState),
       List.replicate 10 (⟨[1204], 1204, 1472⟩ : Sent)) ∧
    verifyTickFire c5params ⟨1472, 1200, 1200, true, [], 0⟩ true =
      ((⟨1472, 1200, 1200, false, [], 0⟩ : PipeState), []) := by
  have h := verify_tick_behavior c5params ⟨1472, 1200, 1200, true, [], 0⟩ rfl rfl rfl
  constructor
  · rw [h.1]
    norm_num [c5params, EthernetOverhead]
  · rw [h.2]

/-! ### C5: no `MinPMTU` floor on `clientPMTU` -/

/-- C5 (amended): the verification countdown applies no `MinPMTU` floor —
    from any armed idle pipeline state, `k` consecutive unverified
    verify-timer firings are a possible run and decrement both the local and
    the connection `clientPMTU` by exactly `10 * k`, so the value eventually
    falls below `MinPMTU` (and below zero); neither the countdown nor the
    `FrameTooBigError` recomputation clamps it. -/
theorem pmtu_countdown_unbounded (p : EncParams) (s : PipeState) (k : Nat)
    (harmed : s.verifyArmed = true) (hb : s.batch = []) (ht : s.totalLen = 0)
    (hcc : s.connClientPMTU = s.clientPMTU) :
    validTrace p s (List.replicate k (Step.tick false)) = true ∧
    (runSteps p s (List.replicate k (Step.tick false))).1.clientPMTU
      = s.clientPMTU - 10 * k ∧
    (runSteps p s (List.replicate k (Step.tick false))).1.connClientPMTU
      = s.clientPMTU - 10 * k := by
  induction k generalizing s with
  | zero =>
    simp [validTrace, runSteps, hcc]
  | succ k ih =>
    have hrun : stepRun p s (Step.tick false) =
        ({ s with clientPMTU := s.clientPMTU - 10, connClientPMTU := s.clientPMTU - 10,
                  verifyArmed := true },
         List.replicate 10
           { frames := [s.clientPMTU - 10 + EthernetOverhead],
             datagramLen := p.frameOverhead + (s.clientPMTU - 10 + EthernetOverhead)
                              + p.packetOverhead,
             maxPayloadAt := s.maxPayload }) := by
      simp only [stepRun]
      exact verifyTick_unverified_closed p s hb ht
    have hok : stepOK s (Step.tick false) = true := by
      simp [stepOK, harmed, hb, ht]
    obtain ⟨ih1, ih2, ih3⟩ :=
      ih { s with clientPMTU := s.clientPMTU - 10, connClientPMTU := s.clientPMTU - 10,
                  verifyArmed := true } rfl (by simpa using hb) (by simpa using ht) rfl
    refine ⟨?_, ?_, ?_⟩
    · simp only [List.replicate_succ, validTrace, hok, Bool.true_and, hrun]
      exact ih1
    · simp only [List.replicate_succ, runSteps, hrun]
      simp only at ih2
      rw [ih2]
      push_cast
      ring
    · simp only [List.replicate_succ, runSteps, hrun]
      simp only at ih3
      rw [ih3]
      push_cast
      ring

theorem pmtu_countdown_unbounded_witness :
    validTrace c5params ⟨1472, 600, 600, true, [], 0⟩
      (List.replicate 3 (Step.tick false)) = true ∧
    (runSteps c5params ⟨1472, 600, 600, true, [], 0⟩
      (List.replicate 3 (Step.tick false))).1.clientPMTU = 570 := by
  have h := pmtu_countdown_unbounded c5params ⟨1472, 600, 600, true, [], 0⟩ 3 rfl rfl rfl rfl
  exact ⟨h.1, by rw [h.2.1]; norm_num⟩

/-- C5 is refuted on the code: a possible run of the DF pipeline — one
    coalesced flush answered by `FrameTooBigError{1500}` (which initializes
    `clientPMTU` to `1458`), followed by 150 verification timeouts with the
    PMTU never verified — leaves both the pipeline's and the connection's
    `clientPMTU` at `-42`, below `MinPMTU` and indeed negative, so the
    violation is independent of the numeric value chosen for `MinPMTU`. -/
theorem clientPMTU_min_counterexample :
    validTrace c5params c5init c5steps = true ∧
    (runSteps c5params c5init c5steps).1.clientPMTU < MinPMTU ∧
    (runSteps c5params c5init c5steps).1.connClientPMTU < MinPMTU ∧
    (runSteps c5params c5init c5steps).1.clientPMTU < 0 := by
  refine ⟨by decide, by decide, by decide, by decide⟩

/-! ### C8: every datagram fits `maxPayload + PacketOverhead` -/

theorem pipeInv_init (p : EncParams) (pmtu c0 : Int) :
    PipeInv p (initPipeState pmtu c0) := by
  refine ⟨le_refl 0, fun _ => rfl, fun h => absurd rfl h, fun h => ?_⟩
  simp [initPipeState] at h

/-- One possible event preserves the pipeline invariant, and every datagram
    it hands to the sender fits `maxPayloadAt + PacketOverhead`. -/
theorem pipeInv_step (p : EncParams) (hf : 0 ≤ p.frameOverhead)
    (hp : 0 ≤ p.packetOverhead) (s : PipeState) (hinv : PipeInv p s) (st : Step)
    (hok : stepOK s st = true) :
    PipeInv p (stepRun p s st).1 ∧
    ∀ d ∈ (stepRun p s st).2, d.datagramLen ≤ d.maxPayloadAt + p.packetOverhead := by
  obtain ⟨h0, hemp, hfull, harm⟩ := hinv
  cases st with
  | append n =>
    refine ⟨?_, by simp [stepRun]⟩
    simp only [stepRun, appendFrame]
    by_cases hgt : s.totalLen + p.frameOverhead + (n : Int) > s.maxPayload
    · rw [if_pos hgt]
      exact ⟨h0, hemp, hfull, harm⟩
    · rw [if_neg hgt]
      simp only [encAppend]
      refine ⟨by positivity, ?_, ?_, by simpa using harm⟩
      · intro h
        simp at h
      · intro _
        simpa using not_lt.mp hgt
  | flushSend res =>
    have hbne : s.batch ≠ [] := by
      simp only [stepOK, Bool.not_eq_eq_eq_not, Bool.not_true] at hok
      intro h
      simp [h] at hok
    have htl : s.totalLen ≤ s.maxPayload := hfull hbne
    cases res with
    | frameTooBig pmtu =>
      simp only [stepRun, flush, encFlush]
      rw [updateClientPMTU_closed p _ rfl rfl]
      constructor
      · refine ⟨le_refl 0, fun _ => rfl, fun h => absurd rfl h, fun _ => ?_⟩
        simp only
        omega
      · intro d hd
        simp only [List.mem_cons] at hd
        rcases hd with hd | hd
        · subst hd
          simp only
          omega
        · have := List.eq_of_mem_replicate hd
          subst this
          simp only
          omega
    | ok =>
      simp only [stepRun, flush, encFlush]
      refine ⟨⟨le_refl 0, fun _ => rfl, fun h => absurd rfl h, fun h => by simpa using harm h⟩, ?_⟩
      intro d hd
      simp only [List.mem_singleton] at hd
      subst hd
      simp only
      omega
    | enobufs =>
      simp only [stepRun, flush, encFlush]
      refine ⟨⟨le_refl 0, fun _ => rfl, fun h => absurd rfl h, fun h => by simpa using harm h⟩, ?_⟩
      intro d hd
      simp only [List.mem_singleton] at hd
      subst hd
      simp only
      omega
    | fatal =>
      simp only [stepRun, flush, encFlush]
      refine ⟨⟨le_refl 0, fun _ => rfl, fun h => absurd rfl h, fun h => by simpa using harm h⟩, ?_⟩
      intro d hd
      simp only [List.mem_singleton] at hd
      subst hd
      simp only
      omega
  | tick v =>
    have hok3 : s.verifyArmed = true ∧ s.batch = [] ∧ s.totalLen = 0 := by
      simp only [stepOK, Bool.and_eq_true, beq_iff_eq, List.isEmpty_iff] at hok
      exact ⟨hok.1.1, hok.1.2, hok.2⟩
    obtain ⟨ha, hb, ht⟩ := hok3
    have hcp := harm ha
    cases v with
    | true =>
      simp only [stepRun, verifyTickFire, if_pos rfl]
      refine ⟨⟨h0, hemp, ?_, fun h => by simp at h⟩, by simp⟩
      intro h
      simpa using hfull h
    | false =>
      simp only [stepRun, verifyTickFire, Bool.false_eq_true, if_false]
      rw [updateClientPMTU_closed p _ (by simpa using hb) (by simpa using ht)]
      constructor
      · refine ⟨by simpa using le_of_eq ht.symm, fun _ => by simpa using ht,
          fun h => absurd (by simpa using hb) h, fun _ => ?_⟩
        simp only
        omega
      · intro d hd
        have := List.eq_of_mem_replicate hd
        subst this
        simp only
        omega

/-- Datagram bound along any possible run from an invariant state. -/
theorem runSteps_bound (p : EncParams) (hf : 0 ≤ p.frameOverhead)
    (hp : 0 ≤ p.packetOverhead) :
    ∀ (steps : List Step) (s : PipeState), PipeInv p s →
      validTrace p s steps = true →
      ∀ d ∈ (runSteps p s steps).2, d.datagramLen ≤ d.maxPayloadAt + p.packetOverhead := by
  intro steps
  induction steps with
  | nil =>
    intro s _ _ d hd
    simp [runSteps] at hd
  | cons st rest ih =>
    intro s hinv hv d hd
    simp only [validTrace, Bool.and_eq_true] at hv
    obtain ⟨hstep, hbound⟩ := pipeInv_step p hf hp s hinv st hv.1
    simp only [runSteps, List.mem_append] at hd
    rcases hd with hd | hd
    · exact hbound d hd
    · exact ih (stepRun p s st).1 hstep hv.2 d hd

/-- C8: along every possible run of a pipeline from its start state, every
    datagram handed to the sender — coalesced flushes and PMTU verification
    sends alike — has length at most the `maxPayload` in effect at the send
    plus the encryptor's `PacketOverhead`, under the accurate-accounting
    assumption built into the encryptor model (nonnegative per-frame and
    per-packet overheads). -/
theorem datagram_size_bound (p : EncParams) (hf : 0 ≤ p.frameOverhead)
    (hp : 0 ≤ p.packetOverhead) (pmtu connPMTU0 : Int) (steps : List Step)
    (hv : validTrace p (initPipeState pmtu connPMTU0) steps = true) :
    ∀ d ∈ (runSteps p (initPipeState pmtu connPMTU0) steps).2,
      d.datagramLen ≤ d.maxPayloadAt + p.packetOverhead :=
  runSteps_bound p hf hp steps (initPipeState pmtu connPMTU0)
    (pipeInv_init p pmtu connPMTU0) hv

theorem datagram_size_bound_witness :
    validTrace c5params (initPipeState 1500 1500)
      [Step.append 100, Step.flushSend SendResult.ok] = true ∧
    ∀ d ∈ (runSteps c5params (initPipeState 1500 1500)
      [Step.append 100, Step.flushSend SendResult.ok]).2,
      d.datagramLen ≤ d.maxPayloadAt + c5params.packetOverhead :=
  ⟨by decide,
   datagram_size_bound c5params (by decide) (by decide) 1500 1500
     [Step.append 100, Step.flushSend SendResult.ok] (by decide)⟩

/-! ### The fragmenter loop: termination, counting, and per-segment layout -/

/-- Once `offset` reaches `payloadSize`, the loop returns normally at once. -/
theorem fragmentLoop_exit (origFlags : Nat) (hSz mSeg pSz oBase : Int)
    (fuel : Nat) (eth : EthernetHdr) (ip : IPv4Hdr) (offset : Int)
    (payload : List Nat) (hfuel : 1 ≤ fuel) (hoff : pSz ≤ offset) :
    fragmentLoop origFlags hSz mSeg pSz oBase fuel eth ip offset payload
      = FragResult.ok [] := by
  cases fuel with
  | zero => omega
  | succ f =>
    simp only [fragmentLoop]
    rw [if_neg (not_lt.mpr hoff)]

/-- Characterization of the chunking loop when `maxSegmentSize ≥ 1` and the
    threaded offset matches the remaining payload: it returns normally,
    emits `ceil(remaining / maxSegmentSize)` segments, each segment's
    fragment offset is `uint16((byteOffset + offsetBase) >> 3)` for its byte
    offset, and every segment carries the threaded (MoreFragments-set) flags
    except the final one, which carries the saved original flags. -/
theorem fragmentLoop_char (origFlags : Nat) (hSz mSeg pSz oBase : Int) (hm : 1 ≤ mSeg) :
    ∀ (fuel : Nat) (payload : List Nat) (offset : Int) (eth : EthernetHdr) (ip : IPv4Hdr),
      (payload.length : Int) = pSz - offset →
      payload.length + 1 ≤ fuel →
      ∃ segs,
        fragmentLoop origFlags hSz mSeg pSz oBase fuel eth ip offset payload
          = FragResult.ok segs ∧
        segs.length = (payload.length + (mSeg.toNat - 1)) / mSeg.toNat ∧
        ∀ (i : Nat) (h : i < segs.length),
          (segs.get ⟨i, h⟩).ip.fragOffset
            = u16 (Int.fdiv (offset + (i : Int) * mSeg + oBase) 8) ∧
          (segs.get ⟨i, h⟩).ip.flags
            = (if i + 1 = segs.length then origFlags else ip.flags) ∧
          (segs.get ⟨i, h⟩).payload
            = (payload.drop (i * mSeg.toNat)).take mSeg.toNat := by
  intro fuel
  induction fuel with
  | zero =>
    intro payload offset eth ip hlen hfuel
    exact absurd hfuel (by omega)
  | succ f ih =>
    intro payload offset eth ip hlen hfuel
    have hm1 : 1 ≤ mSeg.toNat := by omega
    by_cases hoff : offset < pSz
    · have hlpos : 1 ≤ payload.length := by omega
      by_cases hlast : (payload.length : Int) ≤ mSeg
      · -- final chunk
        have hexit : pSz ≤ offset + mSeg := by omega
        have hf1 : 1 ≤ f := by omega
        have hlm : payload.length ≤ mSeg.toNat := by omega
        simp only [fragmentLoop]
        rw [if_pos hoff, if_pos hlast,
          fragmentLoop_exit origFlags hSz mSeg pSz oBase f _ _ _ _ hf1 hexit]
        simp only [FragResult.cons]
        refine ⟨_, rfl, ?_, ?_⟩
        · simp only [List.length_singleton]
          exact (Nat.div_eq_of_lt_le (by omega) (by omega)).symm
        · intro i h
          simp only [List.length_singleton] at h
          have hi0 : i = 0 := by omega
          subst hi0
          refine ⟨?_, ?_, ?_⟩
          · show u16 (Int.fdiv (offset + oBase) 8)
              = u16 (Int.fdiv (offset + ((0 : Nat) : Int) * mSeg + oBase) 8)
            norm_num
          · show origFlags = if 0 + 1 = [(⟨_, _, payload⟩ : Segment)].length
              then origFlags else ip.flags
            rw [if_pos (by simp)]
          · show payload = (payload.drop (0 * mSeg.toNat)).take mSeg.toNat
            rw [Nat.zero_mul, List.drop_zero, List.take_of_length_le hlm]
      · -- middle chunk
        have hmid : mSeg < (payload.length : Int) := not_le.mp hlast
        have hmneg : ¬ mSeg < 0 := by omega
        have hmle : mSeg.toNat ≤ payload.length := by omega
        have hrestlen : (payload.drop mSeg.toNat).length = payload.length - mSeg.toNat := by
          simp [List.length_drop]
        have hlen' : ((payload.drop mSeg.toNat).length : Int) = pSz - (offset + mSeg) := by
          rw [hrestlen]
          omega
        have hfuel' : (payload.drop mSeg.toNat).length + 1 ≤ f := by
          rw [hrestlen]
          omega
        obtain ⟨segs', he, hcount, hprops⟩ :=
          ih (payload.drop mSeg.toNat) (offset + mSeg) eth
            { ip with fragOffset := u16 (Int.fdiv (offset + oBase) 8) } hlen' hfuel'
        have hn1 : 1 ≤ segs'.length := by
          rw [hcount, hrestlen, Nat.one_le_div_iff (by omega)]
          omega
        simp only [fragmentLoop]
        rw [if_pos hoff, if_neg hlast, if_neg hmneg, he]
        simp only [FragResult.cons]
        refine ⟨_, rfl, ?_, ?_⟩
        · simp only [List.length_cons]
          rw [hcount, hrestlen]
          have e1 : payload.length - mSeg.toNat + (mSeg.toNat - 1)
              = payload.length - 1 := by omega
          have e2 : payload.length + (mSeg.toNat - 1)
              = (payload.length - 1) + mSeg.toNat := by omega
          rw [e1, e2, Nat.add_div_right _ (by omega : 0 < mSeg.toNat)]
        · intro i h
          match i with
          | 0 =>
            refine ⟨?_, ?_, ?_⟩
            · show u16 (Int.fdiv (offset + oBase) 8)
                = u16 (Int.fdiv (offset + ((0 : Nat) : Int) * mSeg + oBase) 8)
              norm_num
            · show ip.flags = if 0 + 1 = segs'.length + 1 then origFlags else ip.flags
              rw [if_neg (by omega)]
            · show payload.take mSeg.toNat
                = (payload.drop (0 * mSeg.toNat)).take mSeg.toNat
              rw [Nat.zero_mul, List.drop_zero]
          | j + 1 =>
            have hj : j < segs'.length := by
              simpa [List.length_cons] using h
            obtain ⟨ho, hfl, hpl⟩ := hprops j hj
            refine ⟨?_, ?_, ?_⟩
            · show (segs'.get ⟨j, hj⟩).ip.fragOffset
                = u16 (Int.fdiv (offset + ((j + 1 : Nat) : Int) * mSeg + oBase) 8)
              rw [ho]
              congr 2
              push_cast
              ring
            · show (segs'.get ⟨j, hj⟩).ip.flags
                = if j + 1 + 1 = segs'.length + 1 then origFlags else ip.flags
              rw [hfl]
              by_cases hj1 : j + 1 = segs'.length
              · rw [if_pos hj1, if_pos (by omega)]
              · rw [if_neg hj1, if_neg (by omega)]
            · show (segs'.get ⟨j, hj⟩).payload
                = (payload.drop ((j + 1) * mSeg.toNat)).take mSeg.toNat
              rw [hpl, List.drop_drop]
              congr 2
              ring
    · have hl0 : payload.length = 0 := by omega
      refine ⟨[], ?_, ?_, ?_⟩
      · simp only [fragmentLoop]
        rw [if_neg hoff]
      · simp [hl0, Nat.div_eq_of_lt (by omega : mSeg.toNat - 1 < mSeg.toNat)]
      · intro i h
        simp at h

/-- With `maxSegmentSize = 0` and payload remaining, the offset never
    advances: no amount of fuel makes the loop return normally. -/
theorem fragmentLoop_stuck_zero (origFlags : Nat) (hSz pSz oBase : Int) :
    ∀ (fuel : Nat) (eth : EthernetHdr) (ip : IPv4Hdr) (offset : Int)
      (payload : List Nat), offset < pSz → payload ≠ [] →
      (fragmentLoop origFlags hSz 0 pSz oBase fuel eth ip offset payload).isOk = false := by
  intro fuel
  induction fuel with
  | zero =>
    intro eth ip offset payload hoff hne
    simp [fragmentLoop, FragResult.isOk]
  | succ f ih =>
    intro eth ip offset payload hoff hne
    have hl : 0 < payload.length := List.length_pos.mpr hne
    simp only [fragmentLoop]
    rw [if_pos hoff,
      if_neg (show ¬((payload.length : Int) ≤ 0) by omega),
      if_neg (show ¬((0 : Int) < 0) by omega)]
    rw [show ((0 : Int).toNat) = 0 from rfl, List.drop_zero, List.take_zero,
      FragResult.cons_isOk, add_zero]
    exact ih eth _ offset payload hoff hne

/-- With `maxSegmentSize < 0` the first iteration's payload slice faults. -/
theorem fragmentLoop_fault_neg (origFlags : Nat) (hSz mSeg pSz oBase : Int)
    (hneg : mSeg < 0) (fuel : Nat) (eth : EthernetHdr) (ip : IPv4Hdr)
    (offset : Int) (payload : List Nat) (hoff : offset < pSz) :
    (fragmentLoop origFlags hSz mSeg pSz oBase fuel eth ip offset payload).isOk
      = false := by
  cases fuel with
  | zero => simp [fragmentLoop, FragResult.isOk]
  | succ f =>
    have hc : ¬((payload.length : Int) ≤ mSeg) := by
      have := Int.natCast_nonneg payload.length
      omega
    simp only [fragmentLoop]
    rw [if_pos hoff, if_neg hc, if_pos hneg]
    rfl

/-- `fragment` on a well-formed decoded frame with positive segment size:
    normal return, ceiling-division segment count, and the per-segment
    offset/flags layout. -/
theorem fragment_char (eth : EthernetHdr) (ip : IPv4Hdr) (pmtu : Int)
    (bytes : List Nat) (hm : 1 ≤ maxSegmentSize ip pmtu)
    (h0 : 0 ≤ payloadSizeOf ip) (hle : payloadSizeOf ip ≤ (bytes.length : Int)) :
    ∃ segs,
      fragment eth ip pmtu bytes = FragResult.ok segs ∧
      segs.length = ((payloadSizeOf ip).toNat + ((maxSegmentSize ip pmtu).toNat - 1))
                      / (maxSegmentSize ip pmtu).toNat ∧
      ∀ (i : Nat) (h : i < segs.length),
        (segs.get ⟨i, h⟩).ip.fragOffset
          = u16 (Int.fdiv ((i : Int) * maxSegmentSize ip pmtu
              + (ip.fragOffset : Int) * 8) 8) ∧
        (segs.get ⟨i, h⟩).ip.flags
          = (if i + 1 = segs.length then ip.flags
             else ip.flags ||| IPv4MoreFragments) ∧
        (segs.get ⟨i, h⟩).payload
          = ((bytes.take (payloadSizeOf ip).toNat).drop
              (i * (maxSegmentSize ip pmtu).toNat)).take
              (maxSegmentSize ip pmtu).toNat := by
  have htake : (bytes.take (payloadSizeOf ip).toNat).length = (payloadSizeOf ip).toNat := by
    simp only [List.length_take]
    omega
  have hlen : ((bytes.take (payloadSizeOf ip).toNat).length : Int)
      = payloadSizeOf ip - 0 := by
    rw [htake]
    omega
  have hfuel : (bytes.take (payloadSizeOf ip).toNat).length + 1 ≤ bytes.length + 1 := by
    rw [htake]
    omega
  obtain ⟨segs, he, hcount, hprops⟩ :=
    fragmentLoop_char ip.flags (headerSize ip) (maxSegmentSize ip pmtu)
      (payloadSizeOf ip) ((ip.fragOffset : Int) * 8) hm (bytes.length + 1)
      (bytes.take (payloadSizeOf ip).toNat) 0
      (if eth.ethernetType = EthernetTypeLLC
        then { eth with length := u16 (headerSize ip + maxSegmentSize ip pmtu) }
        else { eth with length := 0 })
      { ip with flags := ip.flags ||| IPv4MoreFragments,
                length := u16 (headerSize ip + maxSegmentSize ip pmtu) }
      hlen hfuel
  have hunfold : fragment eth ip pmtu bytes
      = fragmentLoop ip.flags (headerSize ip) (maxSegmentSize ip pmtu)
          (payloadSizeOf ip) ((ip.fragOffset : Int) * 8) (bytes.length + 1)
          (if eth.ethernetType = EthernetTypeLLC
            then { eth with length := u16 (headerSize ip + maxSegmentSize ip pmtu) }
            else { eth with length := 0 })
          { ip with flags := ip.flags ||| IPv4MoreFragments,
                    length := u16 (headerSize ip + maxSegmentSize ip pmtu) }
          0 (bytes.take (payloadSizeOf ip).toNat) := by
    simp only [fragment, fragmentWithFuel]
    rw [if_pos ⟨h0, hle⟩]
  refine ⟨segs, by rw [hunfold]; exact he, by rw [hcount, htake], ?_⟩
  intro i h
  obtain ⟨ho, hfl, hpl⟩ := hprops i h
  refine ⟨?_, ?_, ?_⟩
  · rw [ho]
    congr 2
    ring
  · rw [hfl]
  · rw [hpl]

/-! ### C6: fragmenter segment geometry -/

/-- C6: for a well-formed decoded Ethernet+IPv4 fragmenter input (with
    `header_size = IHL * 4` and segment size at least 8, the fragmenter's
    interface precondition): `maxSegmentSize` is
    `pmtu - EthernetOverhead - header_size` rounded down to a multiple of 8;
    the fragmenter returns normally; each segment's fragment offset is
    `uint16((byte_offset + original_byte_offset) >> 3)` where the i-th
    segment's byte offset is `i * maxSegmentSize`; every non-final segment
    carries the original flags with `MoreFragments` set while the final
    segment restores the original flags; and an input whose payload size
    equals `maxSegmentSize` yields exactly one segment with the original
    flags preserved. -/
theorem fragment_segment_layout (eth : EthernetHdr) (ip : IPv4Hdr) (pmtu : Int)
    (bytes : List Nat) (hm : 8 ≤ maxSegmentSize ip pmtu)
    (h0 : 0 ≤ payloadSizeOf ip) (hle : payloadSizeOf ip ≤ (bytes.length : Int)) :
    (Int.emod (maxSegmentSize ip pmtu) 8 = 0 ∧
      maxSegmentSize ip pmtu ≤ pmtu - EthernetOverhead - headerSize ip ∧
      pmtu - EthernetOverhead - headerSize ip < maxSegmentSize ip pmtu + 8) ∧
    (fragment eth ip pmtu bytes).isOk = true ∧
    (∀ (i : Nat) (h : i < (fragment eth ip pmtu bytes).segs.length),
      ((fragment eth ip pmtu bytes).segs.get ⟨i, h⟩).ip.fragOffset
        = u16 (Int.fdiv ((i : Int) * maxSegmentSize ip pmtu
            + (ip.fragOffset : Int) * 8) 8) ∧
      ((fragment eth ip pmtu bytes).segs.get ⟨i, h⟩).ip.flags
        = if i + 1 = (fragment eth ip pmtu bytes).segs.length then ip.flags
          else ip.flags ||| IPv4MoreFragments) ∧
    (payloadSizeOf ip = maxSegmentSize ip pmtu →
      (fragment eth ip pmtu bytes).segs.length = 1 ∧
      ∀ h : 0 < (fragment eth ip pmtu bytes).segs.length,
        ((fragment eth ip pmtu bytes).segs.get ⟨0, h⟩).ip.flags = ip.flags) := by
  obtain ⟨segs, he, hcount, hprops⟩ := fragment_char eth ip pmtu bytes (by omega) h0 hle
  have hround := clearLow3_spec (pmtu - EthernetOverhead - headerSize ip)
  refine ⟨⟨hround.1, hround.2.1, hround.2.2⟩, ?_, ?_, ?_⟩
  · rw [he]
    rfl
  · intro i h
    revert h
    rw [he]
    intro h
    exact ⟨(hprops i h).1, (hprops i h).2.1⟩
  · intro hps
    have hone : segs.length = 1 := by
      rw [hcount, hps]
      exact Nat.div_eq_of_lt_le (by omega) (by omega)
    refine ⟨by rw [he]; exact hone, ?_⟩
    intro h
    revert h
    rw [he]
    simp only [FragResult.segs]
    intro h
    have h2 := (hprops 0 h).2.1
    rw [h2, if_pos (by omega)]

theorem fragment_segment_layout_witness :
    (8 : Int) ≤ maxSegmentSize c6ip 48 ∧
    (fragment c6eth c6ip 48 c6bytes).isOk = true :=
  ⟨by decide,
   (fragment_segment_layout c6eth c6ip 48 c6bytes (by decide) (by decide)
     (by decide)).2.1⟩

/-! ### C10: termination dichotomy of the chunking loop -/

/-- C10: with `maxSegmentSize ≥ 8` the chunking loop terminates on every
    well-formed input, producing `ceil(payloadSize / maxSegmentSize)`
    segments; with a non-empty IP payload and `maxSegmentSize ≤ 0` the loop
    never returns normally for any amount of fuel (the offset never
    advances when it is zero, and the payload slice faults when it is
    negative), so the positive segment size is a precondition of the
    fragmenter's interface. -/
theorem fragment_termination_dichotomy :
    (∀ (eth : EthernetHdr) (ip : IPv4Hdr) (pmtu : Int) (bytes : List Nat),
      8 ≤ maxSegmentSize ip pmtu → 0 ≤ payloadSizeOf ip →
      payloadSizeOf ip ≤ (bytes.length : Int) →
      (fragment eth ip pmtu bytes).isOk = true ∧
      (fragment eth ip pmtu bytes).segs.length
        = ((payloadSizeOf ip).toNat + ((maxSegmentSize ip pmtu).toNat - 1))
            / (maxSegmentSize ip pmtu).toNat) ∧
    (∀ (eth : EthernetHdr) (ip : IPv4Hdr) (pmtu : Int) (bytes : List Nat)
        (fuel : Nat),
      maxSegmentSize ip pmtu ≤ 0 → 0 < payloadSizeOf ip →
      payloadSizeOf ip ≤ (bytes.length : Int) →
      (fragmentWithFuel eth ip pmtu bytes fuel).isOk = false) := by
  constructor
  · intro eth ip pmtu bytes hm h0 hle
    obtain ⟨segs, he, hcount, _⟩ := fragment_char eth ip pmtu bytes (by omega) h0 hle
    rw [he]
    exact ⟨rfl, hcount⟩
  · intro eth ip pmtu bytes fuel hm hpos hle
    have htake : (bytes.take (payloadSizeOf ip).toNat).length
        = (payloadSizeOf ip).toNat := by
      simp only [List.length_take]
      omega
    have hne : bytes.take (payloadSizeOf ip).toNat ≠ [] := by
      refine List.ne_nil_of_length_pos ?_
      rw [htake]
      omega
    have hunfold : fragmentWithFuel eth ip pmtu bytes fuel
        = fragmentLoop ip.flags (headerSize ip) (maxSegmentSize ip pmtu)
            (payloadSizeOf ip) ((ip.fragOffset : Int) * 8) fuel
            (if eth.ethernetType = EthernetTypeLLC
              then { eth with length := u16 (headerSize ip + maxSegmentSize ip pmtu) }
              else { eth with length := 0 })
            { ip with flags := ip.flags ||| IPv4MoreFragments,
                      length := u16 (headerSize ip + maxSegmentSize ip pmtu) }
            0 (bytes.take (payloadSizeOf ip).toNat) := by
      have h0' : 0 ≤ payloadSizeOf ip := le_of_lt hpos
      simp only [fragmentWithFuel]
      rw [if_pos ⟨h0', hle⟩]
    rw [hunfold]
    rcases lt_or_eq_of_le hm with hlt | heq
    · exact fragmentLoop_fault_neg _ _ _ _ _ hlt fuel _ _ 0 _ hpos
    · rw [heq]
      exact fragmentLoop_stuck_zero _ _ _ _ fuel _ _ 0 _ hpos hne

theorem fragment_termination_dichotomy_witness :
    (fragment c6eth c6ip 48 c6bytes).isOk = true ∧
    (fragmentWithFuel c6eth c6ip 34 c6bytes 5).isOk = false :=
  ⟨(fragment_termination_dichotomy.1 c6eth c6ip 48 c6bytes (by decide) (by decide)
      (by decide)).1,
   fragment_termination_dichotomy.2 c6eth c6ip 34 c6bytes 5 (by decide) (by decide)
     (by decide)⟩

/-! ### C4: the S3 application-fragmentation scenario -/

/-- The fragmenting branch of `Forward` in isolation, used to evaluate the
    S3 scenario without re-running the whole dispatcher by kernel
    reduction. -/
theorem forward_frag_path (conn : ConnState) (frame : ForwardedFrame)
    (d : EthernetDecoder) (q qdf : List ForwardedFrame) (segs : List Segment)
    (hq : conn.forwardChan = some q) (hqdf : conn.forwardChanDF = some qdf)
    (hsf : conn.stackFrag = false) (hcnt : 2 ≤ d.decodedCount)
    (hbig : conn.clientPMTU < (frame.frame.byteLen : Int) - EthernetOverhead)
    (hfrag : fragment d.eth d.ip conn.clientPMTU d.ipPayload = FragResult.ok segs) :
    Forward conn false frame (some d) =
      (ForwardResult.ok,
       { conn with forwardChanDF := some (qdf ++ enqueueSegs frame segs) }) := by
  simp only [Forward, hq, hqdf]
  have hcond : (conn.stackFrag || decide (d.decodedCount < 2)) = false := by
    simp [hsf, Nat.not_lt.mpr hcnt]
  simp [hcond, not_le.mpr hbig, hfrag]

/-- Layout of the DF queue after the S3 `Forward` call, computed through the
    fragmenter characterization (the scenario's `maxSegmentSize` is 960). -/
theorem c4_layout :
    (Forward c4conn false c4frame (some c4dec)).1 = ForwardResult.ok ∧
    (Forward c4conn false c4frame (some c4dec)).2.forwardChan = some [] ∧
    c4dfq.length = 3 ∧
    c4dfq.map ForwardedFrame.fragOffsetVal = [0, 120, 240] ∧
    c4dfq.map ForwardedFrame.payloadLen = [960, 960, 546] ∧
    c4dfq.map ForwardedFrame.flagsVal = [3, 3, 2] := by
  have hm960 : maxSegmentSize c4ip 1000 = 960 := by decide
  have hps : payloadSizeOf c4ip = 2466 := by decide
  have hlen2466 : c4payload.length = 2466 := by simp [c4payload]
  obtain ⟨segs, he, hcount, hprops⟩ := fragment_char c4eth c4ip 1000 c4payload
    (by rw [hm960]; norm_num) (by rw [hps]; norm_num)
    (by rw [hps, hlen2466]; norm_num)
  have hcount3 : segs.length = 3 := by
    rw [hcount, hps, hm960]
    decide
  have hbyte : c4frame.frame.byteLen = 2500 := by
    simp [c4frame, FrameBytes.byteLen]
  have hbig : c4conn.clientPMTU < (c4frame.frame.byteLen : Int) - EthernetOverhead := by
    rw [hbyte]
    norm_num [c4conn, EthernetOverhead]
  have hforward := forward_frag_path c4conn c4frame c4dec [] [] segs rfl rfl rfl
    (by norm_num [c4dec]) hbig (by exact he)
  have hdfq : c4dfq = enqueueSegs c4frame segs := by
    simp only [c4dfq]
    rw [hforward]
    simp
  have hfo : c4ip.fragOffset = 0 := rfl
  have hfl2 : c4ip.flags = 2 := rfl
  -- per-index facts about the segments
  have hoffs : ∀ (n : Nat) (hn : n < segs.length),
      (segs.get ⟨n, hn⟩).ip.fragOffset = u16 (Int.fdiv ((n : Int) * 960) 8) := by
    intro n hn
    have h1 := (hprops n hn).1
    rw [hm960, hfo] at h1
    simpa using h1
  have hflags : ∀ (n : Nat) (hn : n < segs.length),
      (segs.get ⟨n, hn⟩).ip.flags = if n + 1 = 3 then 2 else 3 := by
    intro n hn
    have h1 := (hprops n hn).2.1
    rw [h1, hfl2, hcount3]
    have h31 : (2 ||| IPv4MoreFragments : Nat) = 3 := by decide
    rw [h31]
  have hplen : ∀ (n : Nat) (hn : n < segs.length),
      (segs.get ⟨n, hn⟩).payload.length = min 960 (2466 - n * 960) := by
    intro n hn
    have h1 := (hprops n hn).2.2
    rw [h1, hps, hm960]
    simp [c4payload, List.length_take, List.length_drop, List.length_replicate]
  -- turn the queue maps into maps over the segments
  have hmap : ∀ (f : ForwardedFrame → Nat) (g : Segment → Nat),
      (∀ s : Segment, f ⟨c4frame.srcPeer, c4frame.dstPeer,
        FrameBytes.serialized s.eth s.ip s.payload⟩ = g s) →
      c4dfq.map f = segs.map g := by
    intro f g hfg
    rw [hdfq]
    simp only [enqueueSegs, List.map_map]
    exact List.map_congr_left fun s _ => hfg s
  have hlenmap : ∀ g : Segment → Nat, (segs.map g).length = 3 := by
    intro g
    simp [hcount3]
  refine ⟨?_, ?_, ?_, ?_, ?_, ?_⟩
  · rw [hforward]
  · rw [hforward]
    rfl
  · rw [hdfq]
    simp [enqueueSegs, hcount3]
  · rw [hmap ForwardedFrame.fragOffsetVal (fun s => s.ip.fragOffset) fun s => rfl]
    refine List.ext_get (by simp [hcount3]) ?_
    intro n h1 h2
    have hn : n < segs.length := by simpa [hcount3] using h1
    have h3 : n < 3 := by omega
    rw [List.get_map]
    interval_cases n
    · rw [hoffs 0 hn]; rfl
    · rw [hoffs 1 hn]; rfl
    · rw [hoffs 2 hn]; rfl
  · rw [hmap ForwardedFrame.payloadLen (fun s => s.payload.length) fun s => rfl]
    refine List.ext_get (by simp [hcount3]) ?_
    intro n h1 h2
    have hn : n < segs.length := by simpa [hcount3] using h1
    have h3 : n < 3 := by omega
    rw [List.get_map]
    interval_cases n
    · rw [hplen 0 hn]; rfl
    · rw [hplen 1 hn]; rfl
    · rw [hplen 2 hn]; rfl
  · rw [hmap ForwardedFrame.flagsVal (fun s => s.ip.flags) fun s => rfl]
    refine List.ext_get (by simp [hcount3]) ?_
    intro n h1 h2
    have hn : n < segs.length := by simpa [hcount3] using h1
    have h3 : n < 3 := by omega
    rw [List.get_map]
    interval_cases n
    · rw [hflags 0 hn]; rfl
    · rw [hflags 1 hn]; rfl
    · rw [hflags 2 hn]; rfl

/-- C4 is refuted on the code: on the S3 inputs the actual segment geometry
    is `maxSegmentSize = (1000 - 14 - 20) &^ 7 = 960`, so the three enqueued
    segments have fragment offsets `0, 120, 240` (not `0, 122, 244`) and the
    non-final segments carry 960 (not 968) payload bytes. -/
theorem fragment_s3_counterexample :
    c4dfq.map ForwardedFrame.fragOffsetVal ≠ [0, 122, 244] ∧
    c4dfq.map ForwardedFrame.payloadLen ≠ [968, 968, 530] := by
  refine ⟨?_, ?_⟩
  · rw [c4_layout.2.2.2.1]
    decide
  · rw [c4_layout.2.2.2.2.1]
    decide

/-- C4 (amended): with `stackFrag = false`, `clientPMTU = 1000` and the
    2500-byte IPv4 frame, the dispatcher's fragmentation path succeeds and
    enqueues exactly 3 segments on the DF queue with fragment offsets
    `0, 120, 240` (8-byte units, from `maxSegmentSize = (1000 - 14 - 20)
    &^ 7 = 960`), the non-final segments carrying 960 bytes of IP payload
    and the final one 546, with `MoreFragments` set on the first two
    segments and the original flags on the third; the non-DF queue is
    untouched. -/
theorem fragment_s3_actual :
    (Forward c4conn false c4frame (some c4dec)).1 = ForwardResult.ok ∧
    (Forward c4conn false c4frame (some c4dec)).2.forwardChan = some [] ∧
    c4dfq.length = 3 ∧
    c4dfq.map ForwardedFrame.fragOffsetVal = [0, 120, 240] ∧
    c4dfq.map ForwardedFrame.payloadLen = [960, 960, 546] ∧
    c4dfq.map ForwardedFrame.flagsVal = [3, 3, 2] :=
  c4_layout

end Weave
